import Mathlib

/-!
Verification of the LiteX SoC integration core (`litex/soc/integration/soc.py`).

This file gives a shallow embedding of the address-space / location-allocation
core of the repository: `SoCRegion` (with its `SoCIORegion` / `SoCLinkerRegion`
variants), `SoCBusHandler` (`add_region`, `alloc_region`,
`check_regions_overlap`, `check_region_is_in`, `check_region_is_io`,
`add_master`, `add_slave`), `SoCLocHandler` (`add`, `alloc`) and
`SoCRegion.decoder`.

Modelling conventions:
* Python dicts become association lists in insertion order; assignment to an
  existing key replaces the value in place (`dictInsert`).
* A Python `raise` (the source always raises after logging) becomes an
  `Except` error value.  Arithmetic on a `None` origin raises `TypeError`
  in Python; this is modelled by the error `SoCError.typeError`.
  Mutating methods return the error together with the post-call state, since
  the source mutates its tables in place and a `raise` does not undo prior
  assignments.
* Region sizes are numeric (`Nat`); origins are `Option Nat` since
  `origin=None` selects the allocation path.
* The unbounded `while` loop of `alloc_region` is given explicit fuel; running
  out of fuel is the distinguished result `AllocRes.fuelOut` (surfacing as
  `SoCError.nonTermination`), which is proved unreachable for the fuel used.
-/

namespace LitexSoC

/-- Region variant: `SoCRegion` (plain), `SoCIORegion` (io), `SoCLinkerRegion`
(linker), modelling the three Python classes that `add_region` dispatches on
via `isinstance`. -/
inductive RegionKind
  | plain
  | io
  | linker
deriving DecidableEq

/-- Embedding of `SoCRegion.__init__`: an address range with mode and caching
attributes.  `origin = none` models Python `origin=None` ("allocate for me"). -/
structure SoCRegion where
  origin : Option Nat
  size : Nat
  mode : String := "rw"
  cached : Bool := true
  kind : RegionKind := .plain
deriving DecidableEq

/-- Failure outcomes of the source's registration calls.  Every failure in the
source is a bare `raise` after logging; the constructors record the program
point that raised.  `typeError` models Python's `TypeError` from arithmetic or
comparison on a `None` origin; `nonTermination` tags fuel exhaustion of the
modelled `while` loop of `alloc_region`. -/
inductive SoCError
  | duplicateName
  | regionOverlap (a b : String)
  | notInIoRegion
  | insufficientSpace
  | nonTermination
  | typeError
  | misaligned
  | missingNameOrRegion
  | unknownRegion
  | duplicateLocName
  | duplicateLocNumber
  | negativeLoc
  | locTooHigh
  | capacityExhausted
deriving DecidableEq

/-- Python dict assignment `d[k] = v` on an insertion-ordered association
list: replaces the value at an existing key in place, otherwise appends. -/
def dictInsert : List (String × α) → String → α → List (String × α)
  | [], k, v => [(k, v)]
  | p :: rest, k, v => if p.1 = k then (k, v) :: rest else p :: dictInsert rest k v

/-- Inner loop of `SoCBusHandler.check_regions_overlap`: compare the fixed
entry `p` against every later entry; pairs involving a Linker region are
skipped, then the two closed-open ranges are compared.  Accessing a `None`
origin in the comparison raises (`typeError`). -/
def checkPairs (p : String × SoCRegion) : List (String × SoCRegion) →
    Except SoCError (Option (String × String))
  | [] => .ok none
  | q :: rest =>
    if p.2.kind = .linker ∨ q.2.kind = .linker then checkPairs p rest
    else
      match p.2.origin, q.2.origin with
      | some o0, some o1 =>
        if o0 ≥ o1 + q.2.size then checkPairs p rest
        else if o1 ≥ o0 + p.2.size then checkPairs p rest
        else .ok (some (p.1, q.1))
      | _, _ => .error .typeError

/-- Embedding of `SoCBusHandler.check_regions_overlap`: O(n²) pairwise scan in
insertion order returning the first conflicting pair, or `none`. -/
def check_regions_overlap : List (String × SoCRegion) →
    Except SoCError (Option (String × String))
  | [] => .ok none
  | p :: rest =>
    match checkPairs p rest with
    | .ok none => check_regions_overlap rest
    | .ok (some pr) => .ok (some pr)
    | .error e => .error e

/-- Embedding of `SoCBusHandler.check_region_is_in`: containment with an
inclusive lower bound and a strict `<` upper bound, exactly as in the source.
Comparison with a `None` origin raises. -/
def check_region_is_in (region container : SoCRegion) : Except SoCError Bool :=
  match region.origin, container.origin with
  | some ro, some co =>
    .ok (decide (ro ≥ co) && decide (ro + region.size < co + container.size))
  | _, _ => .error .typeError

/-- Embedding of `SoCBusHandler.check_region_is_io`: scan all declared I/O
regions, true when some I/O region contains the region. -/
def check_region_is_io (ios : List (String × SoCRegion)) (region : SoCRegion) :
    Except SoCError Bool :=
  match ios with
  | [] => .ok false
  | (_, io_region) :: rest =>
    match check_region_is_in region io_region with
    | .error e => .error e
    | .ok b =>
      match check_region_is_io rest region with
      | .error e => .error e
      | .ok b2 => .ok (b || b2)

/-- One step of `alloc_region`'s inner conflict scan: the source evaluates
`check_regions_overlap({"0": allocated, "1": candidate})` for each allocated
region in insertion order and, on the first conflict, moves the search origin
to `allocated.origin + allocated.size`.  Returns that new origin, or `none`
when the candidate `[corigin, corigin+csize)` conflicts with nothing. -/
def findConflict (regions : List (String × SoCRegion)) (corigin csize : Nat) :
    Except SoCError (Option Nat) :=
  match regions with
  | [] => .ok none
  | (_, a) :: rest =>
    if a.kind = .linker then findConflict rest corigin csize
    else
      match a.origin with
      | none => .error .typeError
      | some ao =>
        if ao ≥ corigin + csize then findConflict rest corigin csize
        else if corigin ≥ ao + a.size then findConflict rest corigin csize
        else .ok (some (ao + a.size))

/-- Result of the fuelled `while` loop of `alloc_region`. -/
inductive AllocRes
  | fuelOut
  | crash (e : SoCError)
  | exhausted
  | found (r : SoCRegion)
deriving DecidableEq

/-- The `while (origin + size) < (search_region.origin + search_region.size)`
loop of `SoCBusHandler.alloc_region`, searching one search region: build a
candidate at `origin`, scan the allocated regions for a conflict, and on
conflict restart from the conflicting region's end.  `fuel` bounds the number
of restarts. -/
def alloc_scan (regions : List (String × SoCRegion)) (size : Nat) (cached : Bool)
    (srEnd : Nat) : Nat → Nat → AllocRes
  | origin, fuel =>
    if origin + size < srEnd then
      match findConflict regions origin size with
      | .error e => .crash e
      | .ok none =>
        .found { origin := some origin, size := size, mode := "rw",
                 cached := cached, kind := .plain }
      | .ok (some o2) =>
        match fuel with
        | 0 => .fuelOut
        | f + 1 => alloc_scan regions size cached srEnd o2 f
    else .exhausted

/-- Iteration of `alloc_region` over its search regions, trying each in turn. -/
def alloc_region_go (regions : List (String × SoCRegion)) (size : Nat)
    (cached : Bool) : List (String × SoCRegion) → Except SoCError SoCRegion
  | [] => .error .insufficientSpace
  | (_, sr) :: rest =>
    match sr.origin with
    | none => .error .typeError
    | some so =>
      match alloc_scan regions size cached (so + sr.size) so (sr.size + 1) with
      | .found c => .ok c
      | .exhausted => alloc_region_go regions size cached rest
      | .crash e => .error e
      | .fuelOut => .error .nonTermination

/-- State of a `SoCBusHandler`: master/slave name tables and the three region
tables.  The handler constructor only admits `address_width = 32`
(`supported_address_width`); the width is kept as a field because
`alloc_region` reads it. -/
structure SoCBusHandler where
  address_width : Nat
  masters : List String
  slaves : List String
  regions : List (String × SoCRegion)
  io_regions : List (String × SoCRegion)
  ld_regions : List (String × SoCRegion)
deriving DecidableEq

/-- Embedding of `SoCBusHandler.alloc_region`: search the I/O regions when
`cached` is false, else a single synthetic search region
`SoCRegion(origin=0, size=2**address_width-1)`.  The fuel `sr.size + 1` given
to each search scan is proved sufficient (claim on termination). -/
def SoCBusHandler.alloc_region (self : SoCBusHandler) (size : Nat)
    (cached : Bool) : Except SoCError SoCRegion :=
  let search_regions : List (String × SoCRegion) :=
    if cached = false then self.io_regions
    else [("main", { origin := some 0, size := 2 ^ self.address_width - 1,
                     mode := "rw", cached := true, kind := .plain })]
  alloc_region_go self.regions size cached search_regions

/-- Embedding of `SoCBusHandler.add_region`.  Dispatch on the region variant:
I/O and Linker regions are stored into their own table and that table is then
checked for overlaps (the store happens before the check, and a failing check
leaves the store in place, as in the source, which raises without undoing the
dict assignment).  A plain region with `origin = none` is allocated via
`alloc_region`; a plain region with an explicit origin is checked for the
uncached-implies-inside-I/O rule, stored, and the stored table checked for
overlaps.  The I/O and Linker branches reject a name already present in
`self.masters` (the source tests `name in self.masters.keys()`). -/
def SoCBusHandler.add_region (self : SoCBusHandler) (name : String)
    (region : SoCRegion) : Except SoCError Unit × SoCBusHandler :=
  match region.kind with
  | .io =>
    if self.masters.contains name then (.error .duplicateName, self)
    else
      let st := { self with io_regions := dictInsert self.io_regions name region }
      match check_regions_overlap st.io_regions with
      | .error e => (.error e, st)
      | .ok (some pr) => (.error (.regionOverlap pr.1 pr.2), st)
      | .ok none => (.ok (), st)
  | .linker =>
    if self.masters.contains name then (.error .duplicateName, self)
    else
      let st := { self with ld_regions := dictInsert self.ld_regions name region }
      match check_regions_overlap st.ld_regions with
      | .error e => (.error e, st)
      | .ok (some pr) => (.error (.regionOverlap pr.1 pr.2), st)
      | .ok none => (.ok (), st)
  | .plain =>
    match region.origin with
    | none =>
      match self.alloc_region region.size region.cached with
      | .error e => (.error e, self)
      | .ok c => (.ok (), { self with regions := dictInsert self.regions name c })
    | some _ =>
      let ioCheck : Except SoCError Unit :=
        if region.cached = false then
          match check_region_is_io self.io_regions region with
          | .error e => .error e
          | .ok false => .error .notInIoRegion
          | .ok true => .ok ()
        else .ok ()
      match ioCheck with
      | .error e => (.error e, self)
      | .ok () =>
        let st := { self with regions := dictInsert self.regions name region }
        match check_regions_overlap st.regions with
        | .error e => (.error e, st)
        | .ok (some pr) => (.error (.regionOverlap pr.1 pr.2), st)
        | .ok none => (.ok (), st)

/-- Embedding of `SoCBusHandler.add_master`: auto-name `master<N>` when no name
is given, reject duplicates, register.  The width-adapting bridge
(`add_adapter`) is pure hardware plumbing and does not touch the tables. -/
def SoCBusHandler.add_master (self : SoCBusHandler) (name : Option String) :
    Except SoCError Unit × SoCBusHandler :=
  let n := match name with
    | none => "master" ++ toString self.masters.length
    | some s => s
  if self.masters.contains n then (.error .duplicateName, self)
  else (.ok (), { self with masters := self.masters ++ [n] })

/-- Embedding of `SoCBusHandler.add_slave`: requires a name or a region;
resolves the region through the table or registers it via `add_region` (whose
table mutations persist even when a later duplicate-slave check fails, as in
the source); then registers the slave. -/
def SoCBusHandler.add_slave (self : SoCBusHandler) (name : Option String)
    (region : Option SoCRegion) : Except SoCError Unit × SoCBusHandler :=
  let no_name := name.isNone
  let no_region := region.isNone
  if no_name && no_region then (.error .missingNameOrRegion, self)
  else
    let n := match name with
      | none => "slave" ++ toString self.slaves.length
      | some s => s
    match region with
    | none =>
      if self.regions.any (fun p => p.1 = n) then
        if self.slaves.contains n then (.error .duplicateName, self)
        else (.ok (), { self with slaves := self.slaves ++ [n] })
      else (.error .unknownRegion, self)
    | some r =>
      match self.add_region n r with
      | (.error e, st) => (.error e, st)
      | (.ok (), st) =>
        if st.slaves.contains n then (.error .duplicateName, st)
        else (.ok (), { st with slaves := st.slaves ++ [n] })

/-- The freshly constructed bus handler (`SoCBusHandler.__init__` with the only
supported address width, 32, and no reserved regions): all tables empty.
Reserved regions are added through ordinary `add_region` calls. -/
def initBus : SoCBusHandler :=
  { address_width := 32, masters := [], slaves := [], regions := [],
    io_regions := [], ld_regions := [] }

/-- States of the bus handler reachable from construction by successful
`add_region` calls. -/
inductive Reachable : SoCBusHandler → Prop
  | init : Reachable initBus
  | step {st : SoCBusHandler} (name : String) (region : SoCRegion) :
      Reachable st → (st.add_region name region).1 = .ok () →
      Reachable (st.add_region name region).2

/-- State of a `SoCLocHandler` (generic slot allocator, base of the CSR and
IRQ handlers): a handler kind name, the hardware-fixed capacity `n_locs`, and
the name-to-slot table.  Slot values are integers since the source compares a
requested slot against `0` with `<`. -/
structure SoCLocHandler where
  name : String
  n_locs : Nat
  locs : List (String × Int)
deriving DecidableEq

/-- The `for n in range(self.n_locs)` scan of `SoCLocHandler.alloc`: `k` is
the next slot number to try and `remaining` the number of slots left to scan
(`n_locs - k`); the first slot not used as a value in the table is returned. -/
def allocScan (locs : List (String × Int)) : Nat → Nat → Except SoCError Int
  | _, 0 => .error .capacityExhausted
  | k, remaining + 1 =>
    if locs.any (fun p => p.2 == (k : Int)) then allocScan locs (k + 1) remaining
    else .ok (k : Int)

/-- Embedding of `SoCLocHandler.alloc`: linear first-unused-slot scan over
`[0, n_locs)`, failing with `capacityExhausted` when none is free.  (The
source's `name` argument is only used for logging.) -/
def SoCLocHandler.alloc (self : SoCLocHandler) : Except SoCError Int :=
  allocScan self.locs 0 self.n_locs

/-- Lookup in a slot table (Python `self.locs[name]`). -/
def lookupLoc (l : List (String × Int)) (k : String) : Option Int :=
  (l.find? (fun p => p.1 == k)).map (fun p => p.2)

/-- Embedding of `SoCLocHandler.add`.  When `use_loc_if_exists` is set and the
name is present, the existing slot is returned and nothing changes.  Otherwise
duplicate names and duplicate slot values are rejected; an omitted slot is
allocated by `alloc`; an explicit slot is rejected when `n < 0` or
`n > n_locs` (the source's comparison is strict, so `n = n_locs` is accepted).
The settled location, which the source logs, is returned for observation. -/
def SoCLocHandler.add (self : SoCLocHandler) (name : String) (n : Option Int)
    (use_loc_if_exists : Bool) : Except SoCError Int × SoCLocHandler :=
  if use_loc_if_exists && self.locs.any (fun p => p.1 == name) then
    ((lookupLoc self.locs name).map Except.ok |>.getD (.error .typeError), self)
  else if self.locs.any (fun p => p.1 == name) then (.error .duplicateLocName, self)
  else if (match n with
           | some m => self.locs.any (fun p => p.2 == m)
           | none => false) then (.error .duplicateLocNumber, self)
  else
    match n with
    | none =>
      match self.alloc with
      | .ok m => (.ok m, { self with locs := dictInsert self.locs name m })
      | .error e => (.error e, self)
    | some m =>
      if m < 0 then (.error .negativeLoc, self)
      else if m > (self.n_locs : Int) then (.error .locTooHigh, self)
      else (.ok m, { self with locs := dictInsert self.locs name m })

/-- Ceiling base-2 logarithm with explicit fuel; `clog2Aux fuel n` equals
migen's `log2_int(n, need_pow2=False)` (that is, `(n-1).bit_length()` for
`n ≥ 1`, and `0` for `n = 0`) whenever `fuel ≥ n`. -/
def clog2Aux : Nat → Nat → Nat
  | 0, _ => 0
  | fuel + 1, n => if n ≤ 1 then 0 else clog2Aux fuel ((n + 1) / 2) + 1

/-- Migen's `log2_int(n, need_pow2=False)`: the ceiling of `log2 n`, with
`log2_int(0) = 0`.  For a power of two it is the exact logarithm, which is
also the value of the strict `log2_int(n)` used on `size >> 2` (at that call
site the argument is always a power of two or zero, so the strict variant
never raises). -/
def log2_int (n : Nat) : Nat := clog2Aux n n

/-- The Python `origin &= ~0x80000000` of `SoCRegion.decoder`: clear bit 31,
keeping every other bit (Python integers are unbounded and `~0x80000000` is an
infinite mask with a single zero at bit 31). -/
def clearBit31 (o : Nat) : Nat := o % 2 ^ 31 + 2 ^ 32 * (o / 2 ^ 32)

/-- Embedding of `SoCRegion.decoder`.  The source masks bit 31 of the origin,
rounds the size up to a power of two, rejects an origin not aligned on the
size, converts bytes to 32-bit words, and returns the predicate
`lambda a: a[log2_int(size):-1] == (origin >> log2_int(size))` over the
word-address signal `a`.  That signal is the 30-bit `adr` of the shared
wishbone bus, so the slice `[x:-1]` keeps bits `x .. 28`; the right-hand
constant is compared after zero-extension to the common width (migen
semantics).  Shifts are written as division/modulus by powers of two.
Modelled from the spec for the part outside `src/`: the spec fixes the bus to
32-bit data and a 32-bit address space, giving 30-bit word addresses (the
wishbone interface's `adr` width). -/
def SoCRegion.decoder (r : SoCRegion) : Except SoCError (Nat → Bool) :=
  match r.origin with
  | none => .error .typeError
  | some o0 =>
    let origin := clearBit31 o0
    let size := 2 ^ log2_int r.size
    if origin &&& (size - 1) ≠ 0 then .error .misaligned
    else
      let originW := origin / 4
      let sizeW := size / 4
      let x := log2_int sizeW
      .ok fun a => ((a / 2 ^ x) % 2 ^ (29 - x)) == (originW / 2 ^ x)

/-- Evaluation of a region's decoder predicate at a word address, `false` when
the decoder itself raises.  Convenience wrapper for concrete evaluations. -/
def decodes (r : SoCRegion) (a : Nat) : Bool :=
  match r.decoder with
  | .ok p => p a
  | .error _ => false

/-- Overlap of two regions as the spec states it: neither lies entirely below
the other.  Regions whose origin is unset overlap nothing (there is nothing to
compare). -/
def overlaps (a b : SoCRegion) : Prop :=
  ∃ oa ob, a.origin = some oa ∧ b.origin = some ob ∧
    oa < ob + b.size ∧ ob < oa + a.size

instance (a b : SoCRegion) : Decidable (overlaps a b) := by
  rcases ha : a.origin with _ | oa
  · exact isFalse (by rintro ⟨oa, ob, h1, _⟩; rw [ha] at h1; cases h1)
  · rcases hb : b.origin with _ | ob
    · exact isFalse (by rintro ⟨oa2, ob2, _, h2, _⟩; rw [hb] at h2; cases h2)
    · refine decidable_of_iff (oa < ob + b.size ∧ ob < oa + a.size) ?_
      constructor
      · rintro ⟨h1, h2⟩; exact ⟨oa, ob, ha, hb, h1, h2⟩
      · rintro ⟨oa2, ob2, h1, h2, h3, h4⟩
        rw [ha] at h1; rw [hb] at h2
        cases h1; cases h2; exact ⟨h3, h4⟩

/-- Containment of `r` in `c` as computed by `check_region_is_in`: inclusive
lower bound, strict upper bound. -/
def region_is_in (r c : SoCRegion) : Prop :=
  ∃ ro co, r.origin = some ro ∧ c.origin = some co ∧
    co ≤ ro ∧ ro + r.size < co + c.size

instance (r c : SoCRegion) : Decidable (region_is_in r c) := by
  rcases hr : r.origin with _ | ro
  · exact isFalse (by rintro ⟨ro, co, h1, _⟩; rw [hr] at h1; cases h1)
  · rcases hc : c.origin with _ | co
    · exact isFalse (by rintro ⟨ro2, co2, _, h2, _⟩; rw [hc] at h2; cases h2)
    · refine decidable_of_iff (co ≤ ro ∧ ro + r.size < co + c.size) ?_
      constructor
      · rintro ⟨h1, h2⟩; exact ⟨ro, co, hr, hc, h1, h2⟩
      · rintro ⟨ro2, co2, h1, h2, h3, h4⟩
        rw [hr] at h1; rw [hc] at h2
        cases h1; cases h2; exact ⟨h3, h4⟩

/-- A region table is overlap-free when no two of its entries overlap, with
Linker-variant entries exempt. -/
def tableNoOverlap (l : List (String × SoCRegion)) : Prop :=
  l.Pairwise fun p q =>
    p.2.kind = .linker ∨ q.2.kind = .linker ∨ ¬ overlaps p.2 q.2

/-- The state `add_region` leaves behind once it has stored `region` in the
table selected by the region's variant (the store that precedes the overlap
check). -/
def regionStored (st : SoCBusHandler) (name : String) (r : SoCRegion) :
    SoCBusHandler :=
  match r.kind with
  | .io => { st with io_regions := dictInsert st.io_regions name r }
  | .linker => { st with ld_regions := dictInsert st.ld_regions name r }
  | .plain => { st with regions := dictInsert st.regions name r }

theorem overlaps_symm {a b : SoCRegion} (h : overlaps a b) : overlaps b a := by
  obtain ⟨oa, ob, h1, h2, h3, h4⟩ := h
  exact ⟨ob, oa, h2, h1, h4, h3⟩

theorem mem_dictInsert {l : List (String × α)} {k : String} {v : α} :
    ∀ q ∈ dictInsert l k v, q ∈ l ∨ q = (k, v) := by
  induction l with
  | nil => intro q hq; simp [dictInsert] at hq; simp [hq]
  | cons p rest ih =>
    intro q hq
    by_cases hpk : p.1 = k
    · simp [dictInsert, hpk] at hq
      rcases hq with hq | hq
      · exact Or.inr (by simp [hq])
      · exact Or.inl (List.mem_cons_of_mem _ hq)
    · simp only [dictInsert, if_neg hpk, List.mem_cons] at hq
      rcases hq with hq | hq
      · exact Or.inl (by simp [hq])
      · rcases ih q hq with h | h
        · exact Or.inl (List.mem_cons_of_mem _ h)
        · exact Or.inr h

theorem dictInsert_pairwise {R : (String × SoCRegion) → (String × SoCRegion) → Prop}
    {l : List (String × SoCRegion)} {k : String} {v : SoCRegion}
    (hl : l.Pairwise R) (h1 : ∀ p ∈ l, R p (k, v)) (h2 : ∀ p ∈ l, R (k, v) p) :
    (dictInsert l k v).Pairwise R := by
  induction l with
  | nil => simp [dictInsert]
  | cons p rest ih =>
    rw [List.pairwise_cons] at hl
    by_cases hpk : p.1 = k
    · simp only [dictInsert, if_pos hpk]
      rw [List.pairwise_cons]
      exact ⟨fun q hq => h2 q (List.mem_cons_of_mem _ hq), hl.2⟩
    · simp only [dictInsert, if_neg hpk]
      rw [List.pairwise_cons]
      refine ⟨fun q hq => ?_, ?_⟩
      · rcases mem_dictInsert q hq with h | h
        · exact hl.1 q h
        · rw [h]; exact h1 p (List.mem_cons_self _ _)
      · exact ih hl.2 (fun q hq => h1 q (List.mem_cons_of_mem _ hq))
          (fun q hq => h2 q (List.mem_cons_of_mem _ hq))

theorem checkPairs_ok_none {p : String × SoCRegion} :
    ∀ {l : List (String × SoCRegion)}, checkPairs p l = .ok none →
      ∀ q ∈ l, p.2.kind = .linker ∨ q.2.kind = .linker ∨ ¬ overlaps p.2 q.2 := by
  intro l
  induction l with
  | nil => intro _ q hq; cases hq
  | cons q0 rest ih =>
    intro h q hq
    simp only [checkPairs] at h
    by_cases hk : p.2.kind = .linker ∨ q0.2.kind = .linker
    · rw [if_pos hk] at h
      rcases List.mem_cons.mp hq with hq | hq
      · subst hq; rcases hk with hk | hk
        · exact Or.inl hk
        · exact Or.inr (Or.inl hk)
      · exact ih h q hq
    · rw [if_neg hk] at h
      rcases ho0 : p.2.origin with _ | o0 <;> rw [ho0] at h
      · cases h
      rcases ho1 : q0.2.origin with _ | o1 <;> rw [ho1] at h
      · cases h
      dsimp only at h
      by_cases hc1 : o0 ≥ o1 + q0.2.size
      · rw [if_pos hc1] at h
        rcases List.mem_cons.mp hq with hq | hq
        · subst hq
          refine Or.inr (Or.inr ?_)
          rintro ⟨oa, ob, hoa, hob, hl1, hl2⟩
          rw [ho0] at hoa; rw [ho1] at hob
          cases hoa; cases hob; omega
        · exact ih h q hq
      · rw [if_neg hc1] at h
        by_cases hc2 : o1 ≥ o0 + p.2.size
        · rw [if_pos hc2] at h
          rcases List.mem_cons.mp hq with hq | hq
          · subst hq
            refine Or.inr (Or.inr ?_)
            rintro ⟨oa, ob, hoa, hob, hl1, hl2⟩
            rw [ho0] at hoa; rw [ho1] at hob
            cases hoa; cases hob; omega
          · exact ih h q hq
        · rw [if_neg hc2] at h
          cases h

theorem check_regions_overlap_ok_none :
    ∀ {l : List (String × SoCRegion)}, check_regions_overlap l = .ok none →
      tableNoOverlap l := by
  intro l
  induction l with
  | nil => intro _; exact List.Pairwise.nil
  | cons p rest ih =>
    intro h
    simp only [check_regions_overlap] at h
    rcases hcp : checkPairs p rest with e | oo
    · rw [hcp] at h; cases h
    · rcases oo with _ | pr
      · rw [hcp] at h
        exact List.Pairwise.cons (checkPairs_ok_none hcp) (ih h)
      · rw [hcp] at h; cases h

theorem findConflict_ok_none {regions : List (String × SoCRegion)} {o s : Nat} :
    findConflict regions o s = .ok none →
      ∀ q ∈ regions, q.2.kind = .linker ∨
        ∀ qo, q.2.origin = some qo → qo ≥ o + s ∨ o ≥ qo + q.2.size := by
  induction regions with
  | nil => intro _ q hq; cases hq
  | cons a rest ih =>
    intro h q hq
    simp only [findConflict] at h
    by_cases hk : a.2.kind = .linker
    · rw [if_pos hk] at h
      rcases List.mem_cons.mp hq with hq | hq
      · subst hq; exact Or.inl hk
      · exact ih h q hq
    · rw [if_neg hk] at h
      rcases ho : a.2.origin with _ | ao <;> rw [ho] at h
      · cases h
      dsimp only at h
      by_cases hc1 : ao ≥ o + s
      · rw [if_pos hc1] at h
        rcases List.mem_cons.mp hq with hq | hq
        · subst hq
          exact Or.inr (fun qo hqo => by rw [ho] at hqo; cases hqo; exact Or.inl hc1)
        · exact ih h q hq
      · rw [if_neg hc1] at h
        by_cases hc2 : o ≥ ao + a.2.size
        · rw [if_pos hc2] at h
          rcases List.mem_cons.mp hq with hq | hq
          · subst hq
            exact Or.inr (fun qo hqo => by rw [ho] at hqo; cases hqo; exact Or.inr hc2)
          · exact ih h q hq
        · rw [if_neg hc2] at h; cases h

theorem findConflict_not_overlaps {regions : List (String × SoCRegion)} {o s : Nat}
    (h : findConflict regions o s = .ok none) {c : SoCRegion}
    (hco : c.origin = some o) (hcs : c.size = s) :
    ∀ q ∈ regions, q.2.kind = .linker ∨ ¬ overlaps q.2 c := by
  intro q hq
  rcases findConflict_ok_none h q hq with hk | hd
  · exact Or.inl hk
  · refine Or.inr ?_
    rintro ⟨qo, co, hqo, hc, hl1, hl2⟩
    rw [hco] at hc; cases hc
    rw [hcs] at hl1
    rcases hd qo hqo with h1 | h1 <;> omega

theorem findConflict_ok_some_gt {regions : List (String × SoCRegion)} {o s n : Nat} :
    findConflict regions o s = .ok (some n) → o < n := by
  induction regions with
  | nil => intro h; cases h
  | cons a rest ih =>
    intro h
    simp only [findConflict] at h
    by_cases hk : a.2.kind = .linker
    · rw [if_pos hk] at h; exact ih h
    · rw [if_neg hk] at h
      rcases ho : a.2.origin with _ | ao <;> rw [ho] at h
      · cases h
      dsimp only at h
      by_cases hc1 : ao ≥ o + s
      · rw [if_pos hc1] at h; exact ih h
      · rw [if_neg hc1] at h
        by_cases hc2 : o ≥ ao + a.2.size
        · rw [if_pos hc2] at h; exact ih h
        · rw [if_neg hc2] at h
          cases h; omega

theorem findConflict_error {regions : List (String × SoCRegion)} {o s : Nat}
    {e : SoCError} : findConflict regions o s = .error e → e = .typeError := by
  induction regions with
  | nil => intro h; cases h
  | cons a rest ih =>
    intro h
    simp only [findConflict] at h
    by_cases hk : a.2.kind = .linker
    · rw [if_pos hk] at h; exact ih h
    · rw [if_neg hk] at h
      rcases ho : a.2.origin with _ | ao <;> rw [ho] at h
      · cases h; rfl
      dsimp only at h
      by_cases hc1 : ao ≥ o + s
      · rw [if_pos hc1] at h; exact ih h
      · rw [if_neg hc1] at h
        by_cases hc2 : o ≥ ao + a.2.size
        · rw [if_pos hc2] at h; exact ih h
        · rw [if_neg hc2] at h; cases h

theorem alloc_scan_ne_fuelOut {regions : List (String × SoCRegion)}
    {size : Nat} {cached : Bool} {srEnd : Nat} :
    ∀ (fuel origin : Nat), srEnd ≤ origin + fuel →
      alloc_scan regions size cached srEnd origin fuel ≠ .fuelOut := by
  intro fuel
  induction fuel with
  | zero =>
    intro origin hb
    rw [alloc_scan]
    rw [if_neg (by omega)]
    simp
  | succ f ih =>
    intro origin hb
    rw [alloc_scan]
    by_cases hc : origin + size < srEnd
    · rw [if_pos hc]
      rcases hfc : findConflict regions origin size with e | oo
      · simp
      · rcases oo with _ | o2
        · simp
        · have hgt := findConflict_ok_some_gt hfc
          exact ih o2 (by omega)
    · rw [if_neg hc]; simp

theorem alloc_scan_found {regions : List (String × SoCRegion)}
    {size : Nat} {cached : Bool} {srEnd : Nat} :
    ∀ (fuel origin : Nat) (c : SoCRegion),
      alloc_scan regions size cached srEnd origin fuel = .found c →
      ∃ o, c = { origin := some o, size := size, mode := "rw",
                 cached := cached, kind := .plain } ∧
        findConflict regions o size = .ok none ∧ o + size < srEnd := by
  intro fuel
  induction fuel with
  | zero =>
    intro origin c h
    rw [alloc_scan] at h
    by_cases hc : origin + size < srEnd
    · rw [if_pos hc] at h
      rcases hfc : findConflict regions origin size with e | oo <;> rw [hfc] at h
      · cases h
      · rcases oo with _ | o2
        · cases h; exact ⟨origin, rfl, hfc, hc⟩
        · cases h
    · rw [if_neg hc] at h; cases h
  | succ f ih =>
    intro origin c h
    rw [alloc_scan] at h
    by_cases hc : origin + size < srEnd
    · rw [if_pos hc] at h
      rcases hfc : findConflict regions origin size with e | oo <;> rw [hfc] at h
      · cases h
      · rcases oo with _ | o2
        · cases h; exact ⟨origin, rfl, hfc, hc⟩
        · exact ih o2 c h
    · rw [if_neg hc] at h; cases h

theorem alloc_scan_crash {regions : List (String × SoCRegion)}
    {size : Nat} {cached : Bool} {srEnd : Nat} :
    ∀ (fuel origin : Nat) (e : SoCError),
      alloc_scan regions size cached srEnd origin fuel = .crash e →
      ∃ o, findConflict regions o size = .error e := by
  intro fuel
  induction fuel with
  | zero =>
    intro origin e h
    rw [alloc_scan] at h
    by_cases hc : origin + size < srEnd
    · rw [if_pos hc] at h
      rcases hfc : findConflict regions origin size with e2 | oo <;> rw [hfc] at h
      · cases h; exact ⟨origin, hfc⟩
      · rcases oo with _ | o2 <;> cases h
    · rw [if_neg hc] at h; cases h
  | succ f ih =>
    intro origin e h
    rw [alloc_scan] at h
    by_cases hc : origin + size < srEnd
    · rw [if_pos hc] at h
      rcases hfc : findConflict regions origin size with e2 | oo <;> rw [hfc] at h
      · cases h; exact ⟨origin, hfc⟩
      · rcases oo with _ | o2
        · cases h
        · exact ih o2 e h
    · rw [if_neg hc] at h; cases h

theorem alloc_region_go_ok {regions : List (String × SoCRegion)}
    {size : Nat} {cached : Bool} :
    ∀ (l : List (String × SoCRegion)) (c : SoCRegion),
      alloc_region_go regions size cached l = .ok c →
      ∃ o, c = { origin := some o, size := size, mode := "rw",
                 cached := cached, kind := .plain } ∧
        findConflict regions o size = .ok none := by
  intro l
  induction l with
  | nil => intro c h; cases h
  | cons p rest ih =>
    intro c h
    obtain ⟨_, sr⟩ := p
    simp only [alloc_region_go] at h
    rcases ho : sr.origin with _ | so <;> rw [ho] at h
    · cases h
    dsimp only at h
    rcases hs : alloc_scan regions size cached (so + sr.size) so (sr.size + 1)
        with _ | e | _ | c2 <;> rw [hs] at h
    · cases h
    · cases h
    · exact ih c h
    · cases h
      obtain ⟨o, hc, hfc, _⟩ := alloc_scan_found _ _ _ hs
      exact ⟨o, hc, hfc⟩

theorem alloc_region_go_ne_nonTermination {regions : List (String × SoCRegion)}
    {size : Nat} {cached : Bool} :
    ∀ l : List (String × SoCRegion),
      alloc_region_go regions size cached l ≠ .error .nonTermination := by
  intro l
  induction l with
  | nil => simp [alloc_region_go]
  | cons p rest ih =>
    obtain ⟨_, sr⟩ := p
    simp only [alloc_region_go]
    rcases ho : sr.origin with _ | so
    · simp
    dsimp only
    rcases hs : alloc_scan regions size cached (so + sr.size) so (sr.size + 1)
        with _ | e | _ | c2
    · exact absurd hs (alloc_scan_ne_fuelOut _ _ (by omega))
    · obtain ⟨o, hfc⟩ := alloc_scan_crash _ _ _ hs
      have := findConflict_error hfc
      subst this
      simp
    · exact ih
    · simp

/-- Characterisation of a successful `alloc_region`: the returned region is the
candidate at some origin, of the requested size, and conflicts with no
allocated region. -/
theorem alloc_region_ok {self : SoCBusHandler} {size : Nat} {cached : Bool}
    {c : SoCRegion} (h : self.alloc_region size cached = .ok c) :
    ∃ o, c = { origin := some o, size := size, mode := "rw",
               cached := cached, kind := .plain } ∧
      findConflict self.regions o size = .ok none := by
  simp only [SoCBusHandler.alloc_region] at h
  exact alloc_region_go_ok _ c h

theorem allocScan_ok {locs : List (String × Int)} :
    ∀ (rem k : Nat) (m : Int), allocScan locs k rem = .ok m →
      ∃ j : Nat, m = (j : Int) ∧ k ≤ j ∧ j < k + rem ∧
        locs.any (fun p => p.2 == (j : Int)) = false ∧
        ∀ i : Nat, k ≤ i → i < j → locs.any (fun p => p.2 == (i : Int)) = true := by
  intro rem
  induction rem with
  | zero => intro k m h; cases h
  | succ r ih =>
    intro k m h
    simp only [allocScan] at h
    by_cases hu : locs.any (fun p => p.2 == (k : Int)) = true
    · rw [if_pos hu] at h
      obtain ⟨j, hm, hk, hlt, hfree, hmin⟩ := ih (k + 1) m h
      refine ⟨j, hm, by omega, by omega, hfree, ?_⟩
      intro i hi1 hi2
      rcases Nat.eq_or_lt_of_le hi1 with hi | hi
      · subst hi; exact hu
      · exact hmin i (by omega) hi2
    · rw [if_neg hu] at h
      cases h
      exact ⟨k, rfl, le_refl _, by omega, Bool.eq_false_iff.mpr hu,
        fun i h1 h2 => by omega⟩

theorem allocScan_full {locs : List (String × Int)} :
    ∀ (rem k : Nat),
      (∀ i : Nat, k ≤ i → i < k + rem → locs.any (fun p => p.2 == (i : Int)) = true) →
      allocScan locs k rem = .error .capacityExhausted := by
  intro rem
  induction rem with
  | zero => intro k _; rfl
  | succ r ih =>
    intro k hfull
    simp only [allocScan]
    rw [if_pos (hfull k (le_refl _) (by omega))]
    exact ih (k + 1) (fun i h1 h2 => hfull i (by omega) (by omega))

theorem check_region_is_in_eq {r c : SoCRegion} {ro co : Nat}
    (hr : r.origin = some ro) (hc : c.origin = some co) :
    check_region_is_in r c =
      .ok (decide (ro ≥ co) && decide (ro + r.size < co + c.size)) := by
  simp only [check_region_is_in, hr, hc]

theorem check_region_is_in_ok_true {r c : SoCRegion}
    (h : check_region_is_in r c = .ok true) : region_is_in r c := by
  rcases hr : r.origin with _ | ro
  · simp [check_region_is_in, hr] at h
  rcases hc : c.origin with _ | co
  · simp [check_region_is_in, hr, hc] at h
  rw [check_region_is_in_eq hr hc] at h
  simp only [Except.ok.injEq, Bool.and_eq_true, decide_eq_true_eq] at h
  exact ⟨ro, co, hr, hc, h.1, h.2⟩

theorem check_region_is_in_ok_false {r c : SoCRegion}
    (h : check_region_is_in r c = .ok false) : ¬ region_is_in r c := by
  rcases hr : r.origin with _ | ro
  · simp [check_region_is_in, hr] at h
  rcases hc : c.origin with _ | co
  · simp [check_region_is_in, hr, hc] at h
  rw [check_region_is_in_eq hr hc] at h
  simp only [Except.ok.injEq, Bool.and_eq_false_iff, decide_eq_false_iff_not] at h
  rintro ⟨ro2, co2, hr2, hc2, hle, hlt⟩
  rw [hr] at hr2; rw [hc] at hc2
  cases hr2; cases hc2
  rcases h with h | h
  · simp at h; omega
  · simp at h; omega

theorem check_region_is_io_ok_true {ios : List (String × SoCRegion)}
    {r : SoCRegion} :
    check_region_is_io ios r = .ok true → ∃ p ∈ ios, region_is_in r p.2 := by
  induction ios with
  | nil => intro h; cases h
  | cons p rest ih =>
    intro h
    obtain ⟨nm, io_region⟩ := p
    simp only [check_region_is_io] at h
    rcases h1 : check_region_is_in r io_region with e | b <;> rw [h1] at h
    · cases h
    rcases h2 : check_region_is_io rest r with e | b2 <;> rw [h2] at h
    · cases h
    dsimp only at h
    simp only [Except.ok.injEq] at h
    rcases Bool.or_eq_true_iff.mp h with hb | hb
    · rw [hb] at h1
      exact ⟨(nm, io_region), List.mem_cons_self _ _, check_region_is_in_ok_true h1⟩
    · rw [hb] at h2
      obtain ⟨q, hq, hiq⟩ := ih h2
      exact ⟨q, List.mem_cons_of_mem _ hq, hiq⟩

theorem check_region_is_io_ok_false {ios : List (String × SoCRegion)}
    {r : SoCRegion} :
    check_region_is_io ios r = .ok false → ∀ p ∈ ios, ¬ region_is_in r p.2 := by
  induction ios with
  | nil => intro _ p hp; cases hp
  | cons p rest ih =>
    intro h q hq
    obtain ⟨nm, io_region⟩ := p
    simp only [check_region_is_io] at h
    rcases h1 : check_region_is_in r io_region with e | b <;> rw [h1] at h
    · cases h
    rcases h2 : check_region_is_io rest r with e | b2 <;> rw [h2] at h
    · cases h
    dsimp only at h
    simp only [Except.ok.injEq] at h
    rcases Bool.or_eq_false_iff.mp h with ⟨hb, hb2⟩
    rw [hb] at h1; rw [hb2] at h2
    rcases List.mem_cons.mp hq with hq | hq
    · subst hq; exact check_region_is_in_ok_false h1
    · exact ih h2 q hq

theorem check_region_is_io_defined {ios : List (String × SoCRegion)}
    {r : SoCRegion} (hr : r.origin.isSome = true)
    (hios : ∀ p ∈ ios, p.2.origin.isSome = true) :
    ∃ b, check_region_is_io ios r = .ok b := by
  induction ios with
  | nil => exact ⟨false, rfl⟩
  | cons p rest ih =>
    obtain ⟨nm, io_region⟩ := p
    obtain ⟨ro, hro⟩ := Option.isSome_iff_exists.mp hr
    obtain ⟨co, hco⟩ := Option.isSome_iff_exists.mp
      (hios (nm, io_region) (List.mem_cons_self _ _))
    have hco2 : io_region.origin = some co := hco
    obtain ⟨b2, hb2⟩ := ih (fun q hq => hios q (List.mem_cons_of_mem _ hq))
    refine ⟨(decide (ro ≥ co) && decide (ro + r.size < co + io_region.size)) || b2, ?_⟩
    simp only [check_region_is_io, check_region_is_in, hro, hco2, hb2]

/-- C1: after every sequence of successful `add_region` calls, the plain-region
table contains no two overlapping regions, and likewise the `io_regions`
table; two regions overlap iff each starts below the other's end, and regions
of the Linker variant are exempt. -/
theorem C1_regions_never_overlap (st : SoCBusHandler) (h : Reachable st) :
    tableNoOverlap st.regions ∧ tableNoOverlap st.io_regions := by
  induction h with
  | init => exact ⟨List.Pairwise.nil, List.Pairwise.nil⟩
  | step name region hr hok ih =>
    rename_i st0
    simp only [SoCBusHandler.add_region] at hok ⊢
    rcases hk : region.kind
    · -- plain region
      simp only [hk] at hok ⊢
      rcases horig : region.origin with _ | o
      · -- allocation path
        simp only [horig] at hok ⊢
        rcases halloc : st0.alloc_region region.size region.cached with e | c
        · try rw [halloc] at hok
          cases hok
        · try rw [halloc] at hok ⊢
          dsimp only at hok ⊢
          refine ⟨?_, ih.2⟩
          obtain ⟨o, hc, hfc⟩ := alloc_region_ok halloc
          have hco : c.origin = some o := by rw [hc]
          have hcs : c.size = region.size := by rw [hc]
          have hno := findConflict_not_overlaps hfc hco hcs
          refine dictInsert_pairwise ih.1 (fun p hp => ?_) (fun p hp => ?_)
          · rcases hno p hp with hl | hl
            · exact Or.inl hl
            · exact Or.inr (Or.inr hl)
          · rcases hno p hp with hl | hl
            · exact Or.inr (Or.inl hl)
            · exact Or.inr (Or.inr (fun hx => hl (overlaps_symm hx)))
      · -- explicit-origin path
        simp only [horig] at hok ⊢
        by_cases hcache : region.cached = false
        · rw [if_pos hcache] at hok ⊢
          rcases hio : check_region_is_io st0.io_regions region with e | b
          · try rw [hio] at hok
            cases hok
          · rw [hio] at hok
            rcases b with _ | _
            · try dsimp only at hok
              cases hok
            · try dsimp only at hok ⊢
              rcases hov : check_regions_overlap (dictInsert st0.regions name region)
                  with e | oo
              · try rw [hov] at hok
                cases hok
              · rcases oo with _ | pr
                · try rw [hov] at hok ⊢
                  try dsimp only at hok ⊢
                  exact ⟨check_regions_overlap_ok_none hov, ih.2⟩
                · try rw [hov] at hok
                  cases hok
        · rw [if_neg hcache] at hok ⊢
          try dsimp only at hok ⊢
          rcases hov : check_regions_overlap (dictInsert st0.regions name region)
              with e | oo
          · try rw [hov] at hok
            cases hok
          · rcases oo with _ | pr
            · try rw [hov] at hok ⊢
              try dsimp only at hok ⊢
              exact ⟨check_regions_overlap_ok_none hov, ih.2⟩
            · try rw [hov] at hok
              cases hok
    · -- io region
      simp only [hk] at hok ⊢
      by_cases hm : st0.masters.contains name
      · rw [if_pos hm] at hok
        cases hok
      · rw [if_neg hm] at hok ⊢
        try dsimp only at hok ⊢
        rcases hov : check_regions_overlap (dictInsert st0.io_regions name region)
            with e | oo
        · try rw [hov] at hok
          cases hok
        · rcases oo with _ | pr
          · try rw [hov] at hok ⊢
            try dsimp only at hok ⊢
            exact ⟨ih.1, check_regions_overlap_ok_none hov⟩
          · try rw [hov] at hok
            cases hok
    · -- linker region
      simp only [hk] at hok ⊢
      by_cases hm : st0.masters.contains name
      · rw [if_pos hm] at hok
        cases hok
      · rw [if_neg hm] at hok ⊢
        try dsimp only at hok ⊢
        rcases hov : check_regions_overlap (dictInsert st0.ld_regions name region)
            with e | oo
        · try rw [hov] at hok
          cases hok
        · rcases oo with _ | pr
          · try rw [hov] at hok ⊢
            try dsimp only at hok ⊢
            exact ih
          · try rw [hov] at hok
            cases hok

/-- C10: for every region-table state and every size strictly greater than
zero, `alloc_region` terminates: each candidate conflict strictly advances the
search origin (to the conflicting region's end, which lies strictly above the
current origin because they overlap), and the scan is bounded by the search
region's end, so the fuel `search_region.size + 1` given to the scan is never
exhausted. -/
theorem C10_alloc_region_terminates (st : SoCBusHandler) (size : Nat)
    (cached : Bool) (hs : 0 < size) :
    st.alloc_region size cached ≠ .error .nonTermination := by
  simp only [SoCBusHandler.alloc_region]
  exact alloc_region_go_ne_nonTermination _

theorem C10_witness :
    initBus.alloc_region 0x1000 true ≠ .error .nonTermination :=
  C10_alloc_region_terminates initBus 0x1000 true (by decide)

/-- C2 (amended): whenever `alloc_region` returns a region, that region has
the requested size and caching and overlaps no region already present in the
`regions` table (entries of the Linker variant being skipped by the scan);
however its origin is NOT necessarily a multiple of its size, because the
search advances to the end of a conflicting region without re-aligning. -/
theorem C2_alloc_region_no_overlap (st : SoCBusHandler) (size : Nat)
    (cached : Bool) (c : SoCRegion) (h : st.alloc_region size cached = .ok c) :
    c.size = size ∧ c.cached = cached ∧ c.kind = .plain ∧
      ∀ p ∈ st.regions, p.2.kind = .linker ∨ ¬ overlaps p.2 c := by
  obtain ⟨o, hc, hfc⟩ := alloc_region_ok h
  exact ⟨by rw [hc], by rw [hc], by rw [hc],
    findConflict_not_overlaps hfc (by rw [hc]) (by rw [hc])⟩

theorem C2_witness :
    ({ origin := some 0x100, size := 0x1000, mode := "rw", cached := true,
       kind := .plain } : SoCRegion).size = 0x1000 ∧
    ({ origin := some 0x100, size := 0x1000, mode := "rw", cached := true,
       kind := .plain } : SoCRegion).cached = true ∧
    ({ origin := some 0x100, size := 0x1000, mode := "rw", cached := true,
       kind := .plain } : SoCRegion).kind = .plain ∧
    ∀ p ∈ ({ initBus with
        regions := [("rom", { origin := some 0, size := 0x100, mode := "rw",
                              cached := true, kind := .plain })] } :
          SoCBusHandler).regions,
      p.2.kind = .linker ∨
        ¬ overlaps p.2 { origin := some 0x100, size := 0x1000, mode := "rw",
                         cached := true, kind := .plain } :=
  C2_alloc_region_no_overlap
    { initBus with
      regions := [("rom", { origin := some 0, size := 0x100, mode := "rw",
                            cached := true, kind := .plain })] }
    0x1000 true
    { origin := some 0x100, size := 0x1000, mode := "rw", cached := true,
      kind := .plain }
    rfl

/-- C2 (counterexample): from the prior state holding the single region
`rom = [0, 0x100)` (power-of-two sized and aligned), allocating a cached
region of the power-of-two size `0x1000` returns a region at origin `0x100`,
which is not a multiple of `0x1000` -- the claim that `alloc_region` always
returns a correctly aligned region is false. -/
theorem C2_counterexample :
    ({ initBus with
        regions := [("rom", { origin := some 0, size := 0x100, mode := "rw",
                              cached := true, kind := .plain })] } :
        SoCBusHandler).alloc_region 0x1000 true =
      .ok { origin := some 0x100, size := 0x1000, mode := "rw", cached := true,
            kind := .plain } ∧
    (0x1000 : Nat) = 2 ^ 12 ∧ ¬ (0x100 % 0x1000 = 0) :=
  ⟨rfl, by decide, by decide⟩

/-- C3 (amended): `add_region` performs no power-of-two-size or
origin-alignment validation at all: a plain region with an explicit origin is
stored whenever the uncached-implies-inside-I/O check (for an uncached region)
and the overlap check pass, misaligned or not; there is no `MisalignedRegion`
failure in `add_region` (the source only checks alignment later, inside
`decoder`). -/
theorem C3_no_alignment_validation (st : SoCBusHandler) (name : String)
    (r : SoCRegion) (o : Nat) (hk : r.kind = .plain) (ho : r.origin = some o)
    (hio : r.cached = false → check_region_is_io st.io_regions r = .ok true)
    (hov : check_regions_overlap (dictInsert st.regions name r) = .ok none) :
    st.add_region name r =
      (.ok (), { st with regions := dictInsert st.regions name r }) := by
  simp only [SoCBusHandler.add_region, hk, ho]
  by_cases hcache : r.cached = false
  · rw [if_pos hcache, hio hcache]
    rw [hov]
  · rw [if_neg hcache]
    rw [hov]

/-- C3 (counterexample): adding a plain region with the explicit origin `4`
and power-of-two size `8` -- whose origin is not a multiple of its size --
succeeds and stores the region, where the claim demands a `MisalignedRegion`
failure with nothing stored. -/
theorem C3_counterexample :
    initBus.add_region "buf" { origin := some 4, size := 8, mode := "rw",
                               cached := true, kind := .plain } =
      (.ok (), { initBus with
        regions := [("buf", { origin := some 4, size := 8, mode := "rw",
                              cached := true, kind := .plain })] }) ∧
    ¬ (4 % 8 = 0) :=
  ⟨rfl, by decide⟩

theorem C3_witness :
    ({ initBus with
        io_regions := [("io0", { origin := some 0, size := 0x10000,
                                 mode := "rw", cached := false,
                                 kind := .io })] } :
        SoCBusHandler).add_region "buf"
      { origin := some 4, size := 8, mode := "rw", cached := false,
        kind := .plain } =
      (.ok (),
        { initBus with
          io_regions := [("io0", { origin := some 0, size := 0x10000,
                                   mode := "rw", cached := false,
                                   kind := .io })],
          regions := dictInsert initBus.regions "buf"
            { origin := some 4, size := 8, mode := "rw", cached := false,
              kind := .plain } }) :=
  C3_no_alignment_validation
    { initBus with
      io_regions := [("io0", { origin := some 0, size := 0x10000,
                               mode := "rw", cached := false,
                               kind := .io })] }
    "buf"
    { origin := some 4, size := 8, mode := "rw", cached := false,
      kind := .plain }
    4 rfl rfl (fun _ => rfl) rfl

/-- C4: `add_region` stores an uncached plain region with explicit origin only
if some declared I/O region contains it, where containment has an inclusive
lower bound and a STRICT upper bound (`region.origin + region.size <
io.origin + io.size`); when (all I/O origins being set) no I/O region contains
it -- including a region exactly coinciding with an I/O region, whose end
equals the I/O region's end -- the call fails with the
uncached-outside-I/O error and the tables are unchanged. -/
theorem C4_uncached_requires_io (st : SoCBusHandler) (name : String)
    (r : SoCRegion) (o : Nat) (hk : r.kind = .plain) (ho : r.origin = some o)
    (hc : r.cached = false) :
    ((st.add_region name r).1 = .ok () → ∃ p ∈ st.io_regions, region_is_in r p.2) ∧
    ((∀ p ∈ st.io_regions, p.2.origin.isSome = true) →
      (¬ ∃ p ∈ st.io_regions, region_is_in r p.2) →
      st.add_region name r = (.error .notInIoRegion, st)) := by
  constructor
  · intro hok
    simp only [SoCBusHandler.add_region, hk, ho, hc, if_true] at hok
    rcases hio : check_region_is_io st.io_regions r with e | b
    · try rw [hio] at hok
      cases hok
    · rcases b with _ | _
      · try rw [hio] at hok
        cases hok
      · exact check_region_is_io_ok_true hio
  · intro hdef hnot
    have hrs : r.origin.isSome = true := by rw [ho]; rfl
    obtain ⟨b, hb⟩ := check_region_is_io_defined hrs hdef
    rcases b with _ | _
    · simp only [SoCBusHandler.add_region, hk, ho, hc, if_true, hb]
    · exact absurd (check_region_is_io_ok_true hb) hnot

theorem C4_witness :
    ({ initBus with
        io_regions := [("io0", { origin := some 0x1000, size := 0x1000,
                                 mode := "rw", cached := false,
                                 kind := .io })] } :
        SoCBusHandler).add_region "periph"
      { origin := some 0x1000, size := 0x1000, mode := "rw", cached := false,
        kind := .plain } =
      (.error .notInIoRegion,
        { initBus with
          io_regions := [("io0", { origin := some 0x1000, size := 0x1000,
                                   mode := "rw", cached := false,
                                   kind := .io })] }) :=
  (C4_uncached_requires_io
      { initBus with
        io_regions := [("io0", { origin := some 0x1000, size := 0x1000,
                                 mode := "rw", cached := false,
                                 kind := .io })] }
      "periph"
      { origin := some 0x1000, size := 0x1000, mode := "rw", cached := false,
        kind := .plain }
      0x1000 rfl rfl rfl).2 (by decide) (by decide)

/-- C5: `alloc` returns the smallest slot in `[0, n_locs)` not currently used
as a value in the table, and once every slot of `[0, n_locs)` is used, an
`add` call without an explicit slot number on a fresh name fails with the
capacity-exhausted error. -/
theorem C5_alloc_smallest_free (h : SoCLocHandler) (name : String) (u : Bool) :
    (∀ m : Int, h.alloc = .ok m →
      0 ≤ m ∧ m < (h.n_locs : Int) ∧ (¬ ∃ p ∈ h.locs, p.2 = m) ∧
      ∀ j : Nat, (j : Int) < m → ∃ p ∈ h.locs, p.2 = (j : Int)) ∧
    ((∀ j : Nat, j < h.n_locs → ∃ p ∈ h.locs, p.2 = (j : Int)) →
      (¬ ∃ p ∈ h.locs, p.1 = name) →
      (h.add name none u).1 = .error .capacityExhausted) := by
  constructor
  · intro m hm
    obtain ⟨j, hmj, _, hjlt, hfree, hmin⟩ := allocScan_ok h.n_locs 0 m hm
    subst hmj
    refine ⟨by exact_mod_cast Nat.zero_le j, by exact_mod_cast (by omega : j < h.n_locs), ?_, ?_⟩
    · rintro ⟨p, hp, hpv⟩
      have := List.any_eq_false.mp hfree p hp
      simp only [beq_iff_eq] at this
      exact this hpv
    · intro j2 hj2
      have hj2n : j2 < j := by exact_mod_cast hj2
      have := hmin j2 (Nat.zero_le _) hj2n
      obtain ⟨p, hp, hpv⟩ := List.any_eq_true.mp this
      simp only [beq_iff_eq] at hpv
      exact ⟨p, hp, hpv⟩
  · intro hfull hfresh
    have hany : h.locs.any (fun p => p.1 == name) = false := by
      rw [List.any_eq_false]
      intro p hp
      simp only [beq_iff_eq]
      exact fun hpe => hfresh ⟨p, hp, hpe⟩
    have halloc : h.alloc = .error .capacityExhausted := by
      apply allocScan_full
      intro i _ hi
      have := hfull i (by omega)
      obtain ⟨p, hp, hpv⟩ := this
      rw [List.any_eq_true]
      exact ⟨p, hp, by simp only [beq_iff_eq]; exact hpv⟩
    simp only [SoCLocHandler.add, hany, Bool.and_false, Bool.false_eq_true,
      if_false, halloc]

theorem C5_witness :
    (0 ≤ (1 : Int) ∧ (1 : Int) < ((2 : Nat) : Int) ∧
      (¬ ∃ p ∈ [("a", (0 : Int))], p.2 = (1 : Int)) ∧
      ∀ j : Nat, (j : Int) < (1 : Int) → ∃ p ∈ [("a", (0 : Int))], p.2 = (j : Int)) ∧
    (({ name := "IRQ", n_locs := 1, locs := [("a", 0)] } : SoCLocHandler).add
        "b" none false).1 = .error .capacityExhausted :=
  ⟨(C5_alloc_smallest_free { name := "CSR", n_locs := 2, locs := [("a", 0)] }
      "b" false).1 1 rfl,
   (C5_alloc_smallest_free { name := "IRQ", n_locs := 1, locs := [("a", 0)] }
      "b" false).2 (by decide) (by decide)⟩

/-- C6: the source's bound check `n > self.n_locs` is strict, so the explicit
slot number `n = n_locs` (one past the last valid slot) is accepted and
stored: on a fresh handler of capacity 32, `add("x", 32)` succeeds and stores
slot 32, which lies outside `[0, 32)`.  The claim -- and the handler's own
"Up to 32 Locations" capacity -- require every slot to lie in
`[0, capacity)`, so this is an off-by-one bug in the code. -/
theorem C6_slot_equal_capacity_accepted :
    (({ name := "IRQ", n_locs := 32, locs := [] } : SoCLocHandler).add "x"
        (some 32) false) =
      (.ok 32, { name := "IRQ", n_locs := 32, locs := [("x", 32)] }) ∧
    ¬ ((32 : Int) < ((32 : Nat) : Int)) :=
  ⟨rfl, by decide⟩

/-- C7: with `use_loc_if_exists = true` and a name already registered, `add`
returns the slot already mapped to that name and leaves the handler unchanged,
so a second identical call returns the same slot again and no extra slot is
consumed. -/
theorem C7_add_reuse_idempotent (h : SoCLocHandler) (name : String)
    (n : Option Int) (m0 : Int) (hm : lookupLoc h.locs name = some m0) :
    h.add name n true = (.ok m0, h) ∧
    (h.add name n true).2.add name n true = (.ok m0, h) := by
  have hany : h.locs.any (fun p => p.1 == name) = true := by
    simp only [lookupLoc, Option.map_eq_some'] at hm
    obtain ⟨p, hp, _⟩ := hm
    rw [List.any_eq_true]
    exact ⟨p, List.mem_of_find?_eq_some hp, by
      have := List.find?_some hp
      exact this⟩
  have h1 : h.add name n true = (.ok m0, h) := by
    simp only [SoCLocHandler.add, hany, Bool.and_true, Bool.true_and, if_true, hm]
    rfl
  refine ⟨h1, ?_⟩
  have h2 : (h.add name n true).2 = h := by rw [h1]
  rw [h2, h1]

theorem C7_witness :
    ({ name := "CSR", n_locs := 4, locs := [("uart", 1)] } : SoCLocHandler).add
        "uart" none true =
      (.ok 1, { name := "CSR", n_locs := 4, locs := [("uart", 1)] }) ∧
    (({ name := "CSR", n_locs := 4, locs := [("uart", 1)] } : SoCLocHandler).add
        "uart" none true).2.add "uart" none true =
      (.ok 1, { name := "CSR", n_locs := 4, locs := [("uart", 1)] }) :=
  C7_add_reuse_idempotent
    { name := "CSR", n_locs := 4, locs := [("uart", 1)] } "uart" none 1 rfl

theorem locAdd_state_cases (h : SoCLocHandler) (name : String) (n : Option Int)
    (u : Bool) :
    (h.add name n u).2 = h ∨
      ∃ m, h.add name n u = (.ok m, { h with locs := dictInsert h.locs name m }) := by
  simp only [SoCLocHandler.add]
  by_cases h1 : (u && h.locs.any (fun p => p.1 == name)) = true
  · rw [if_pos h1]
    exact Or.inl rfl
  · rw [if_neg h1]
    by_cases h2 : h.locs.any (fun p => p.1 == name) = true
    · rw [if_pos h2]
      exact Or.inl rfl
    · rw [if_neg h2]
      by_cases h3 : (match n with
          | some m => h.locs.any (fun p => p.2 == m)
          | none => false) = true
      · rw [if_pos h3]
        exact Or.inl rfl
      · rw [if_neg h3]
        rcases n with _ | m
        · dsimp only
          rcases ha : h.alloc with e2 | m2
          · try rw [ha]
            exact Or.inl rfl
          · try rw [ha]
            exact Or.inr ⟨m2, rfl⟩
        · dsimp only
          by_cases h4 : m < 0
          · rw [if_pos h4]
            exact Or.inl rfl
          · rw [if_neg h4]
            by_cases h5 : m > (h.n_locs : Int)
            · rw [if_pos h5]
              exact Or.inl rfl
            · rw [if_neg h5]
              exact Or.inr ⟨m, rfl⟩

theorem locAdd_error_state (h : SoCLocHandler) (name : String) (n : Option Int)
    (u : Bool) (e : SoCError) (he : (h.add name n u).1 = .error e) :
    (h.add name n u).2 = h := by
  rcases locAdd_state_cases h name n u with hc | ⟨m, hc⟩
  · exact hc
  · rw [hc] at he
    cases he

theorem addMaster_state_cases (st : SoCBusHandler) (name : Option String) :
    (st.add_master name).2 = st ∨ (st.add_master name).1 = .ok () := by
  simp only [SoCBusHandler.add_master]
  by_cases h1 : st.masters.contains
      (match name with
       | none => "master" ++ toString st.masters.length
       | some s => s) = true
  · rw [if_pos h1]
    exact Or.inl rfl
  · rw [if_neg h1]
    exact Or.inr rfl

theorem addMaster_error_state (st : SoCBusHandler) (name : Option String)
    (e : SoCError) (he : (st.add_master name).1 = .error e) :
    (st.add_master name).2 = st := by
  rcases addMaster_state_cases st name with hc | hc
  · exact hc
  · rw [hc] at he
    cases he

theorem addRegion_state_cases (st : SoCBusHandler) (name : String)
    (r : SoCRegion) :
    (st.add_region name r).2 = st ∨
      (st.add_region name r).2 = regionStored st name r ∨
      (st.add_region name r).1 = .ok () := by
  simp only [SoCBusHandler.add_region, regionStored]
  rcases hk : r.kind
  · -- plain
    simp only [hk]
    rcases horig : r.origin with _ | o
    · rcases halloc : st.alloc_region r.size r.cached with e2 | c
      · try rw [halloc]
        exact Or.inl rfl
      · try rw [halloc]
        exact Or.inr (Or.inr rfl)
    · by_cases hcache : r.cached = false
      · rw [if_pos hcache]
        rcases hio : check_region_is_io st.io_regions r with e2 | b
        · try rw [hio]
          exact Or.inl rfl
        · rcases b with _ | _
          · try rw [hio]
            exact Or.inl rfl
          · try rw [hio]
            try dsimp only
            rcases hov : check_regions_overlap (dictInsert st.regions name r)
                with e2 | oo
            · try rw [hov]
              exact Or.inr (Or.inl rfl)
            · rcases oo with _ | pr
              · try rw [hov]
                exact Or.inr (Or.inl rfl)
              · try rw [hov]
                exact Or.inr (Or.inl rfl)
      · rw [if_neg hcache]
        try dsimp only
        rcases hov : check_regions_overlap (dictInsert st.regions name r)
            with e2 | oo
        · try rw [hov]
          exact Or.inr (Or.inl rfl)
        · rcases oo with _ | pr
          · try rw [hov]
            exact Or.inr (Or.inl rfl)
          · try rw [hov]
            exact Or.inr (Or.inl rfl)
  · -- io
    simp only [hk]
    by_cases hm : st.masters.contains name
    · rw [if_pos hm]
      exact Or.inl rfl
    · rw [if_neg hm]
      try dsimp only
      rcases hov : check_regions_overlap (dictInsert st.io_regions name r)
          with e2 | oo
      · try rw [hov]
        exact Or.inr (Or.inl rfl)
      · rcases oo with _ | pr
        · try rw [hov]
          exact Or.inr (Or.inl rfl)
        · try rw [hov]
          exact Or.inr (Or.inl rfl)
  · -- linker
    simp only [hk]
    by_cases hm : st.masters.contains name
    · rw [if_pos hm]
      exact Or.inl rfl
    · rw [if_neg hm]
      try dsimp only
      rcases hov : check_regions_overlap (dictInsert st.ld_regions name r)
          with e2 | oo
      · try rw [hov]
        exact Or.inr (Or.inl rfl)
      · rcases oo with _ | pr
        · try rw [hov]
          exact Or.inr (Or.inl rfl)
        · try rw [hov]
          exact Or.inr (Or.inl rfl)

theorem addRegion_error_state (st : SoCBusHandler) (name : String)
    (r : SoCRegion) (e : SoCError) (he : (st.add_region name r).1 = .error e) :
    (st.add_region name r).2 = st ∨
      (st.add_region name r).2 = regionStored st name r := by
  rcases addRegion_state_cases st name r with hc | hc | hc
  · exact Or.inl hc
  · exact Or.inr hc
  · rw [hc] at he
    cases he

theorem checkPairs_error {p : String × SoCRegion} :
    ∀ {l : List (String × SoCRegion)} {e : SoCError},
      checkPairs p l = .error e → e = .typeError := by
  intro l
  induction l with
  | nil => intro e h; cases h
  | cons q0 rest ih =>
    intro e h
    simp only [checkPairs] at h
    by_cases hk : p.2.kind = .linker ∨ q0.2.kind = .linker
    · rw [if_pos hk] at h
      exact ih h
    · rw [if_neg hk] at h
      rcases ho0 : p.2.origin with _ | o0 <;> rw [ho0] at h
      · cases h; rfl
      rcases ho1 : q0.2.origin with _ | o1 <;> rw [ho1] at h
      · cases h; rfl
      dsimp only at h
      by_cases hc1 : o0 ≥ o1 + q0.2.size
      · rw [if_pos hc1] at h
        exact ih h
      · rw [if_neg hc1] at h
        by_cases hc2 : o1 ≥ o0 + p.2.size
        · rw [if_pos hc2] at h
          exact ih h
        · rw [if_neg hc2] at h
          cases h

theorem check_regions_overlap_error :
    ∀ {l : List (String × SoCRegion)} {e : SoCError},
      check_regions_overlap l = .error e → e = .typeError := by
  intro l
  induction l with
  | nil => intro e h; cases h
  | cons p rest ih =>
    intro e h
    simp only [check_regions_overlap] at h
    rcases hcp : checkPairs p rest with e2 | oo
    · try rw [hcp] at h
      try dsimp only at h
      cases h
      exact checkPairs_error hcp
    · rcases oo with _ | pr
      · try rw [hcp] at h
        try dsimp only at h
        exact ih h
      · try rw [hcp] at h
        try dsimp only at h
        cases h

theorem check_region_is_in_error {r c : SoCRegion} {e : SoCError}
    (h : check_region_is_in r c = .error e) : e = .typeError := by
  simp only [check_region_is_in] at h
  rcases hr : r.origin with _ | ro <;> rw [hr] at h
  · cases h; rfl
  rcases hc : c.origin with _ | co <;> rw [hc] at h
  · cases h; rfl
  dsimp only at h
  cases h

theorem check_region_is_io_error {r : SoCRegion} :
    ∀ {ios : List (String × SoCRegion)} {e : SoCError},
      check_region_is_io ios r = .error e → e = .typeError := by
  intro ios
  induction ios with
  | nil => intro e h; cases h
  | cons p rest ih =>
    intro e h
    obtain ⟨nm, io_region⟩ := p
    simp only [check_region_is_io] at h
    rcases h1 : check_region_is_in r io_region with e2 | b <;> rw [h1] at h
    · cases h
      exact check_region_is_in_error h1
    · rcases h2 : check_region_is_io rest r with e2 | b2 <;> rw [h2] at h
      · cases h
        exact ih h2
      · cases h

theorem alloc_region_go_error_shape {regions : List (String × SoCRegion)}
    {size : Nat} {cached : Bool} :
    ∀ (l : List (String × SoCRegion)) (e : SoCError),
      alloc_region_go regions size cached l = .error e →
      e = .insufficientSpace ∨ e = .typeError ∨ e = .nonTermination := by
  intro l
  induction l with
  | nil =>
    intro e h
    cases h
    exact Or.inl rfl
  | cons p rest ih =>
    intro e h
    obtain ⟨_, sr⟩ := p
    simp only [alloc_region_go] at h
    rcases ho : sr.origin with _ | so <;> rw [ho] at h
    · cases h
      exact Or.inr (Or.inl rfl)
    dsimp only at h
    rcases hs : alloc_scan regions size cached (so + sr.size) so (sr.size + 1)
        with _ | e2 | _ | c2 <;> rw [hs] at h
    · cases h
      exact Or.inr (Or.inr rfl)
    · cases h
      obtain ⟨o, hfc⟩ := alloc_scan_crash _ _ _ hs
      exact Or.inr (Or.inl (findConflict_error hfc))
    · exact ih e h
    · cases h

theorem alloc_region_error_shape {st : SoCBusHandler} {size : Nat}
    {cached : Bool} {e : SoCError}
    (h : st.alloc_region size cached = .error e) :
    e = .insufficientSpace ∨ e = .typeError ∨ e = .nonTermination := by
  simp only [SoCBusHandler.alloc_region] at h
  exact alloc_region_go_error_shape _ e h

theorem addRegion_cases_precise (st : SoCBusHandler) (name : String)
    (r : SoCRegion) :
    (st.add_region name r).1 = .ok () ∨
    (∃ e, st.add_region name r = (.error e, st) ∧
      ∀ a b, e ≠ .regionOverlap a b) ∨
    (∃ e, st.add_region name r = (.error e, regionStored st name r) ∧
      (e = .typeError ∨ ∃ a b, e = .regionOverlap a b)) := by
  simp only [SoCBusHandler.add_region, regionStored]
  rcases hk : r.kind
  · -- plain
    simp only [hk]
    rcases horig : r.origin with _ | o
    · rcases halloc : st.alloc_region r.size r.cached with e2 | c
      · try rw [halloc]
        refine Or.inr (Or.inl ⟨e2, rfl, fun a b hc => ?_⟩)
        rcases alloc_region_error_shape halloc with h | h | h <;> rw [h] at hc <;>
          cases hc
      · try rw [halloc]
        exact Or.inl rfl
    · by_cases hcache : r.cached = false
      · rw [if_pos hcache]
        rcases hio : check_region_is_io st.io_regions r with e2 | b
        · try rw [hio]
          refine Or.inr (Or.inl ⟨e2, rfl, fun a b hc => ?_⟩)
          rw [check_region_is_io_error hio] at hc
          cases hc
        · rcases b with _ | _
          · try rw [hio]
            exact Or.inr (Or.inl ⟨.notInIoRegion, rfl, fun a b hc => by cases hc⟩)
          · try rw [hio]
            try dsimp only
            rcases hov : check_regions_overlap (dictInsert st.regions name r)
                with e2 | oo
            · try rw [hov]
              refine Or.inr (Or.inr ⟨e2, rfl, Or.inl ?_⟩)
              exact check_regions_overlap_error hov
            · rcases oo with _ | pr
              · try rw [hov]
                exact Or.inl rfl
              · try rw [hov]
                exact Or.inr (Or.inr ⟨.regionOverlap pr.1 pr.2, rfl,
                  Or.inr ⟨pr.1, pr.2, rfl⟩⟩)
      · rw [if_neg hcache]
        try dsimp only
        rcases hov : check_regions_overlap (dictInsert st.regions name r)
            with e2 | oo
        · try rw [hov]
          refine Or.inr (Or.inr ⟨e2, rfl, Or.inl ?_⟩)
          exact check_regions_overlap_error hov
        · rcases oo with _ | pr
          · try rw [hov]
            exact Or.inl rfl
          · try rw [hov]
            exact Or.inr (Or.inr ⟨.regionOverlap pr.1 pr.2, rfl,
              Or.inr ⟨pr.1, pr.2, rfl⟩⟩)
  · -- io
    simp only [hk]
    by_cases hm : st.masters.contains name
    · rw [if_pos hm]
      exact Or.inr (Or.inl ⟨.duplicateName, rfl, fun a b hc => by cases hc⟩)
    · rw [if_neg hm]
      try dsimp only
      rcases hov : check_regions_overlap (dictInsert st.io_regions name r)
          with e2 | oo
      · try rw [hov]
        refine Or.inr (Or.inr ⟨e2, rfl, Or.inl ?_⟩)
        exact check_regions_overlap_error hov
      · rcases oo with _ | pr
        · try rw [hov]
          exact Or.inl rfl
        · try rw [hov]
          exact Or.inr (Or.inr ⟨.regionOverlap pr.1 pr.2, rfl,
            Or.inr ⟨pr.1, pr.2, rfl⟩⟩)
  · -- linker
    simp only [hk]
    by_cases hm : st.masters.contains name
    · rw [if_pos hm]
      exact Or.inr (Or.inl ⟨.duplicateName, rfl, fun a b hc => by cases hc⟩)
    · rw [if_neg hm]
      try dsimp only
      rcases hov : check_regions_overlap (dictInsert st.ld_regions name r)
          with e2 | oo
      · try rw [hov]
        refine Or.inr (Or.inr ⟨e2, rfl, Or.inl ?_⟩)
        exact check_regions_overlap_error hov
      · rcases oo with _ | pr
        · try rw [hov]
          exact Or.inl rfl
        · try rw [hov]
          exact Or.inr (Or.inr ⟨.regionOverlap pr.1 pr.2, rfl,
            Or.inr ⟨pr.1, pr.2, rfl⟩⟩)

theorem addRegion_overlap_keeps_region (st : SoCBusHandler) (name : String)
    (r : SoCRegion) (a b : String)
    (he : (st.add_region name r).1 = .error (.regionOverlap a b)) :
    (st.add_region name r).2 = regionStored st name r := by
  rcases addRegion_cases_precise st name r with h1 | ⟨e, h2, h3⟩ | ⟨e, h2, _⟩
  · rw [h1] at he
    cases he
  · have hfst : (st.add_region name r).1 = .error e := by rw [h2]
    rw [hfst] at he
    cases he
    exact absurd rfl (h3 a b)
  · rw [h2]

theorem addRegion_other_error_atomic (st : SoCBusHandler) (name : String)
    (r : SoCRegion) (e : SoCError) (he : (st.add_region name r).1 = .error e)
    (ht : e ≠ .typeError) (hrov : ∀ a b, e ≠ .regionOverlap a b) :
    (st.add_region name r).2 = st := by
  rcases addRegion_cases_precise st name r with h1 | ⟨e2, h2, _⟩ | ⟨e2, h2, h4⟩
  · rw [h1] at he
    cases he
  · rw [h2]
  · have hfst : (st.add_region name r).1 = .error e2 := by rw [h2]
    rw [hfst] at he
    cases he
    rcases h4 with h4 | ⟨a, b, h4⟩
    · exact absurd h4 ht
    · exact absurd h4 (hrov a b)

theorem addSlave_no_region_error_state (st : SoCBusHandler)
    (name : Option String) (e : SoCError)
    (he : (st.add_slave name none).1 = .error e) :
    (st.add_slave name none).2 = st := by
  rcases name with _ | s
  · rfl
  · simp only [SoCBusHandler.add_slave, Option.isNone, Bool.false_and,
      Bool.and_false, Bool.false_eq_true, if_false] at he ⊢
    try dsimp only at he ⊢
    by_cases h1 : st.regions.any (fun p => p.1 = s) = true
    · rw [if_pos h1] at he ⊢
      by_cases h2 : st.slaves.contains s = true
      · rw [if_pos h2]
      · rw [if_neg h2] at he
        cases he
    · rw [if_neg h1]

theorem addSlave_region_error_state (st : SoCBusHandler) (name : Option String)
    (r : SoCRegion) (e : SoCError) :
    (st.add_slave name (some r)).1 = .error e →
    (st.add_slave name (some r)).2 =
      (st.add_region (match name with
        | none => "slave" ++ toString st.slaves.length
        | some s => s) r).2 := by
  intro he
  rcases name with _ | s
  · simp only [SoCBusHandler.add_slave, Option.isNone, Bool.false_and,
      Bool.and_false, Bool.false_eq_true, if_false] at he ⊢
    try dsimp only at he ⊢
    rcases har : st.add_region ("slave" ++ toString st.slaves.length) r
        with ⟨res, st2⟩
    try rw [har] at he
    try rw [har]
    try dsimp only at he
    try dsimp only
    rcases res with e2 | v
    · rfl
    · rcases v
      try simp only [] at he
      try simp only []
      by_cases hdup :
          st2.slaves.contains ("slave" ++ toString st.slaves.length) = true
      · rw [if_pos hdup]
      · rw [if_neg hdup] at he
        cases he
  · simp only [SoCBusHandler.add_slave, Option.isNone, Bool.false_and,
      Bool.and_false, Bool.false_eq_true, if_false] at he ⊢
    try dsimp only at he ⊢
    rcases har : st.add_region s r with ⟨res, st2⟩
    try rw [har] at he
    try rw [har]
    try dsimp only at he
    try dsimp only
    rcases res with e2 | v
    · rfl
    · rcases v
      try simp only [] at he
      try simp only []
      by_cases hdup : st2.slaves.contains s = true
      · rw [if_pos hdup]
      · rw [if_neg hdup] at he
        cases he

/-- C8 (amended): `SoCLocHandler.add` and `add_master` are atomic -- a failing
call leaves the handler exactly as before.  `add_region` is not: it stores the
region into the selected table before running the overlap check, so a call
failing with a region-overlap error always leaves the new region stored, and
every other failure except a `None`-origin type error always leaves the tables
unchanged (a type error leaves the region stored exactly when it arises in the
post-store overlap scan, and the tables unchanged when it arises in the
pre-store checks, so for it only the two-way disjunction holds).  `add_slave`
delegates to `add_region` and inherits its non-atomicity: when `add_slave`
with a region argument fails, its final state is exactly `add_region`'s
post-call state (so a region can stay registered), while `add_slave` without
a region argument is atomic. -/
theorem C8_atomicity_amended :
    (∀ (h : SoCLocHandler) (name : String) (n : Option Int) (u : Bool)
        (e : SoCError), (h.add name n u).1 = .error e → (h.add name n u).2 = h) ∧
    (∀ (st : SoCBusHandler) (name : Option String) (e : SoCError),
        (st.add_master name).1 = .error e → (st.add_master name).2 = st) ∧
    (∀ (st : SoCBusHandler) (name : String) (r : SoCRegion) (a b : String),
        (st.add_region name r).1 = .error (.regionOverlap a b) →
          (st.add_region name r).2 = regionStored st name r) ∧
    (∀ (st : SoCBusHandler) (name : String) (r : SoCRegion) (e : SoCError),
        (st.add_region name r).1 = .error e → e ≠ .typeError →
          (∀ a b, e ≠ .regionOverlap a b) → (st.add_region name r).2 = st) ∧
    (∀ (st : SoCBusHandler) (name : String) (r : SoCRegion),
        (st.add_region name r).1 = .error .typeError →
          (st.add_region name r).2 = st ∨
            (st.add_region name r).2 = regionStored st name r) ∧
    (∀ (st : SoCBusHandler) (name : Option String) (e : SoCError),
        (st.add_slave name none).1 = .error e → (st.add_slave name none).2 = st) ∧
    (∀ (st : SoCBusHandler) (name : Option String) (r : SoCRegion)
        (e : SoCError), (st.add_slave name (some r)).1 = .error e →
          (st.add_slave name (some r)).2 =
            (st.add_region (match name with
              | none => "slave" ++ toString st.slaves.length
              | some s => s) r).2) :=
  ⟨locAdd_error_state, addMaster_error_state, addRegion_overlap_keeps_region,
   addRegion_other_error_atomic,
   fun st name r he => addRegion_error_state st name r .typeError he,
   addSlave_no_region_error_state, addSlave_region_error_state⟩

/-- C8 (counterexample): from the reachable state obtained by successfully
adding the I/O region `a = [0, 0x100)`, adding the overlapping I/O region
`b = [0x80, 0x180)` fails with the overlap error, yet the failed call's state
differs from the pre-call state: `b` stays in the `io_regions` table. -/
theorem C8_counterexample :
    ((initBus.add_region "a"
        { origin := some 0, size := 0x100, mode := "rw", cached := false,
          kind := .io }).1 = .ok ()) ∧
    (((initBus.add_region "a"
        { origin := some 0, size := 0x100, mode := "rw", cached := false,
          kind := .io }).2.add_region "b"
        { origin := some 0x80, size := 0x100, mode := "rw", cached := false,
          kind := .io }).1 = .error (.regionOverlap "a" "b")) ∧
    ((initBus.add_region "a"
        { origin := some 0, size := 0x100, mode := "rw", cached := false,
          kind := .io }).2.add_region "b"
        { origin := some 0x80, size := 0x100, mode := "rw", cached := false,
          kind := .io }).2 ≠
      (initBus.add_region "a"
        { origin := some 0, size := 0x100, mode := "rw", cached := false,
          kind := .io }).2 :=
  ⟨rfl, rfl, by decide⟩

theorem C8_witness :
    ((({ name := "IRQ", n_locs := 4, locs := [("a", 0)] } : SoCLocHandler).add
        "a" none false).2 =
      { name := "IRQ", n_locs := 4, locs := [("a", 0)] }) ∧
    ((({ initBus with masters := ["m"] } : SoCBusHandler).add_master
        (some "m")).2 = { initBus with masters := ["m"] }) ∧
    ((({ initBus with
          io_regions := [("a", { origin := some 0, size := 0x100, mode := "rw",
                                 cached := false, kind := .io })] } :
          SoCBusHandler).add_region "b"
        { origin := some 0x80, size := 0x100, mode := "rw", cached := false,
          kind := .io }).2 =
      regionStored
        { initBus with
          io_regions := [("a", { origin := some 0, size := 0x100, mode := "rw",
                                 cached := false, kind := .io })] }
        "b"
        { origin := some 0x80, size := 0x100, mode := "rw", cached := false,
          kind := .io }) ∧
    ((initBus.add_region "u"
        { origin := some 0x2000, size := 0x100, mode := "rw", cached := false,
          kind := .plain }).2 = initBus) ∧
    ((({ initBus with
          io_regions := [("x", { origin := none, size := 0x100, mode := "rw",
                                 cached := false, kind := .io })] } :
          SoCBusHandler).add_region "y"
        { origin := some 0x200, size := 0x100, mode := "rw", cached := false,
          kind := .io }).2 =
        { initBus with
          io_regions := [("x", { origin := none, size := 0x100, mode := "rw",
                                 cached := false, kind := .io })] } ∨
      (({ initBus with
          io_regions := [("x", { origin := none, size := 0x100, mode := "rw",
                                 cached := false, kind := .io })] } :
          SoCBusHandler).add_region "y"
        { origin := some 0x200, size := 0x100, mode := "rw", cached := false,
          kind := .io }).2 =
        regionStored
          { initBus with
            io_regions := [("x", { origin := none, size := 0x100, mode := "rw",
                                   cached := false, kind := .io })] }
          "y"
          { origin := some 0x200, size := 0x100, mode := "rw", cached := false,
            kind := .io }) ∧
    ((initBus.add_slave (some "s") none).2 = initBus) ∧
    ((({ initBus with
          io_regions := [("a", { origin := some 0, size := 0x100, mode := "rw",
                                 cached := false, kind := .io })] } :
          SoCBusHandler).add_slave (some "b")
        (some { origin := some 0x80, size := 0x100, mode := "rw",
                cached := false, kind := .io })).2 =
      (({ initBus with
          io_regions := [("a", { origin := some 0, size := 0x100, mode := "rw",
                                 cached := false, kind := .io })] } :
          SoCBusHandler).add_region "b"
        { origin := some 0x80, size := 0x100, mode := "rw", cached := false,
          kind := .io }).2) :=
  ⟨C8_atomicity_amended.1 { name := "IRQ", n_locs := 4, locs := [("a", 0)] }
      "a" none false .duplicateLocName rfl,
   C8_atomicity_amended.2.1 { initBus with masters := ["m"] } (some "m")
      .duplicateName rfl,
   C8_atomicity_amended.2.2.1
      { initBus with
        io_regions := [("a", { origin := some 0, size := 0x100, mode := "rw",
                               cached := false, kind := .io })] }
      "b"
      { origin := some 0x80, size := 0x100, mode := "rw", cached := false,
        kind := .io }
      "a" "b" rfl,
   C8_atomicity_amended.2.2.2.1 initBus "u"
      { origin := some 0x2000, size := 0x100, mode := "rw", cached := false,
        kind := .plain }
      .notInIoRegion rfl (by decide) (fun a b hc => SoCError.noConfusion hc),
   C8_atomicity_amended.2.2.2.2.1
      { initBus with
        io_regions := [("x", { origin := none, size := 0x100, mode := "rw",
                               cached := false, kind := .io })] }
      "y"
      { origin := some 0x200, size := 0x100, mode := "rw", cached := false,
        kind := .io }
      rfl,
   C8_atomicity_amended.2.2.2.2.2.1 initBus (some "s") .unknownRegion rfl,
   C8_atomicity_amended.2.2.2.2.2.2
      { initBus with
        io_regions := [("a", { origin := some 0, size := 0x100, mode := "rw",
                               cached := false, kind := .io })] }
      (some "b")
      { origin := some 0x80, size := 0x100, mode := "rw", cached := false,
        kind := .io }
      (.regionOverlap "a" "b") rfl⟩

theorem land_two_pow_sub_one (n s : Nat) : n &&& (2 ^ s - 1) = n % 2 ^ s := by
  apply Nat.eq_of_testBit_eq
  intro i
  rw [Nat.testBit_land, Nat.testBit_mod_two_pow]
  rcases lt_or_le i s with h | h
  · simp [Nat.testBit_two_pow_sub_one, h]
  · simp [Nat.testBit_two_pow_sub_one, h, Nat.not_lt.mpr h]

theorem clog2Aux_pow : ∀ (s fuel : Nat), 2 ^ s ≤ fuel →
    clog2Aux fuel (2 ^ s) = s := by
  intro s
  induction s with
  | zero =>
    intro fuel hf
    rcases fuel with _ | f
    · norm_num at hf
    · simp [clog2Aux]
  | succ s ih =>
    intro fuel hf
    have ha : 0 < 2 ^ s := pow_pos (by norm_num) s
    have hpow : 2 ^ (s + 1) = 2 * 2 ^ s := by rw [pow_succ]; ring
    rcases fuel with _ | f
    · omega
    · show clog2Aux (f + 1) (2 ^ (s + 1)) = s + 1
      simp only [clog2Aux]
      rw [if_neg (by omega)]
      have hdiv : (2 ^ (s + 1) + 1) / 2 = 2 ^ s := by omega
      rw [hdiv, ih f (by omega)]

theorem log2_int_pow (s : Nat) : log2_int (2 ^ s) = s := by
  unfold log2_int
  exact clog2Aux_pow s (2 ^ s) (le_refl _)

/-- C9 (amended): for a region of power-of-two size `S = 2^s` with
`4 ≤ S ≤ 2^30`, origin a multiple of `S`, and `O + S` within the 32-bit
address space, the decoder predicate is true at the word addresses of `O` and
`O + S - 4` and false at the word address of `O + S`.  (For `S = 2^31` the
claim fails: the decoder masks bit 31 of the origin and drops the top bit of
the 30-bit word address, so such a region's predicate also accepts the word
address of `O + S`; see the counterexample.) -/
theorem C9_decoder_roundtrip (s O : Nat) (h2 : 2 ≤ s) (h30 : s ≤ 30)
    (hal : O % 2 ^ s = 0) (hb : O + 2 ^ s ≤ 2 ^ 32) :
    ∃ p, SoCRegion.decoder
        { origin := some O, size := 2 ^ s, mode := "rw", cached := true,
          kind := .plain } = .ok p ∧
      p (O / 4) = true ∧ p ((O + 2 ^ s - 4) / 4) = true ∧
      p ((O + 2 ^ s) / 4) = false := by
  have hs0 : 0 < 2 ^ s := pow_pos (by norm_num) s
  have hOlt : O < 2 ^ 32 := by omega
  have hcb : clearBit31 O = O % 2 ^ 31 := by
    unfold clearBit31
    rw [Nat.div_eq_of_lt hOlt, Nat.mul_zero, Nat.add_zero]
  have hs4 : 2 ^ s = 4 * 2 ^ (s - 2) := by
    have hss : 2 ^ s = 2 ^ (2 + (s - 2)) := by
      congr 1
      omega
    rw [hss, pow_add]
    norm_num
  have hbpos : 0 < 2 ^ (s - 2) := pow_pos (by norm_num) _
  have h4s : 4 ≤ 2 ^ s := by omega
  have hsizeW : 2 ^ s / 4 = 2 ^ (s - 2) := by
    rw [hs4, Nat.mul_div_cancel_left _ (by norm_num : (0:Nat) < 4)]
  have hmod31 : O % 2 ^ 31 % 2 ^ s = 0 := by
    rw [Nat.mod_mod_of_dvd _ (pow_dvd_pow 2 (by omega : s ≤ 31))]
    exact hal
  have hdvd : 2 ^ s ∣ O := Nat.dvd_of_mod_eq_zero hal
  have hOm : 2 ^ s * (O / 2 ^ s) = O := Nat.mul_div_cancel' hdvd
  have hk1 : 2 ^ 31 = 2 ^ s * 2 ^ (31 - s) := by
    rw [← pow_add]
    congr 1
    omega
  have hK2 : 2 ≤ 2 ^ (31 - s) := by
    calc (2 : Nat) = 2 ^ 1 := by norm_num
    _ ≤ 2 ^ (31 - s) := Nat.pow_le_pow_right (by norm_num) (by omega)
  have hmod : O % 2 ^ 31 = 2 ^ s * (O / 2 ^ s % 2 ^ (31 - s)) := by
    conv_lhs => rw [← hOm]
    rw [hk1, Nat.mul_mod_mul_left]
  have hdec : SoCRegion.decoder
      { origin := some O, size := 2 ^ s, mode := "rw", cached := true,
        kind := .plain } =
      .ok (fun a => ((a / 2 ^ (s - 2)) % 2 ^ (29 - (s - 2))) ==
        (O % 2 ^ 31 / 4 / 2 ^ (s - 2))) := by
    simp only [SoCRegion.decoder, hcb, log2_int_pow, hsizeW]
    rw [if_neg (by rw [land_two_pow_sub_one, hmod31]; simp)]
  have hRHS : O % 2 ^ 31 / 4 / 2 ^ (s - 2) = O / 2 ^ s % 2 ^ (31 - s) := by
    rw [Nat.div_div_eq_div_mul, ← hs4, hmod, Nat.mul_div_cancel_left _ hs0]
  have h29 : 29 - (s - 2) = 31 - s := by omega
  refine ⟨_, hdec, ?_, ?_, ?_⟩
  · -- at the word address of O
    dsimp only
    rw [h29, hRHS]
    have hp1 : O / 4 / 2 ^ (s - 2) = O / 2 ^ s := by
      rw [Nat.div_div_eq_div_mul, ← hs4]
    rw [hp1]
    exact beq_self_eq_true _
  · -- at the word address of O + S - 4
    dsimp only
    rw [h29, hRHS]
    have hp2 : (O + 2 ^ s - 4) / 4 / 2 ^ (s - 2) = O / 2 ^ s := by
      rw [Nat.div_div_eq_div_mul, ← hs4, Nat.add_sub_assoc h4s]
      conv_lhs => rw [← hOm]
      rw [Nat.mul_add_div hs0,
        Nat.div_eq_of_lt (show 2 ^ s - 4 < 2 ^ s by omega), Nat.add_zero]
    rw [hp2]
    exact beq_self_eq_true _
  · -- at the word address of O + S
    dsimp only
    rw [h29, hRHS]
    have hp3 : (O + 2 ^ s) / 4 / 2 ^ (s - 2) = O / 2 ^ s + 1 := by
      rw [Nat.div_div_eq_div_mul, ← hs4]
      conv_lhs => rw [← hOm]
      rw [← Nat.mul_succ, Nat.mul_div_cancel_left _ hs0]
    rw [hp3]
    have hne : (O / 2 ^ s + 1) % 2 ^ (31 - s) ≠ O / 2 ^ s % 2 ^ (31 - s) := by
      have hv : O / 2 ^ s % 2 ^ (31 - s) < 2 ^ (31 - s) :=
        Nat.mod_lt _ (by omega)
      have h1 : (O / 2 ^ s + 1) % 2 ^ (31 - s) =
          (O / 2 ^ s % 2 ^ (31 - s) + 1) % 2 ^ (31 - s) := by
        rw [Nat.add_mod, Nat.mod_eq_of_lt (show (1:Nat) < 2 ^ (31 - s) by omega)]
      by_cases hcase : O / 2 ^ s % 2 ^ (31 - s) + 1 < 2 ^ (31 - s)
      · rw [h1, Nat.mod_eq_of_lt hcase]
        omega
      · have heq : O / 2 ^ s % 2 ^ (31 - s) + 1 = 2 ^ (31 - s) := by omega
        rw [h1, heq, Nat.mod_self]
        omega
    exact beq_eq_false_iff_ne.mpr hne

theorem C9_witness :
    ∃ p, SoCRegion.decoder
        { origin := some 0x10000, size := 2 ^ 12, mode := "rw", cached := true,
          kind := .plain } = .ok p ∧
      p (0x10000 / 4) = true ∧ p ((0x10000 + 2 ^ 12 - 4) / 4) = true ∧
      p ((0x10000 + 2 ^ 12) / 4) = false :=
  C9_decoder_roundtrip 12 0x10000 (by norm_num) (by norm_num) (by norm_num)
    (by norm_num)

/-- C9 (counterexample): the region at origin `0` of the power-of-two size
`2^31` (origin trivially a multiple of the size) has a decoder predicate that
is TRUE at the word address of `O + S = 2^31`, where the claim requires it to
be false: the decoder clears bit 31 of the origin and its bit-slice drops the
top bit of the 30-bit word address, so a 2 GiB region matches every address. -/
theorem C9_counterexample :
    decodes { origin := some 0, size := 2 ^ 31, mode := "rw", cached := true,
              kind := .plain } ((0 + 2 ^ 31) / 4) = true ∧
    (0 : Nat) % 2 ^ 31 = 0 :=
  ⟨by decide, by decide⟩

theorem C1_witness :
    tableNoOverlap
      ((initBus.add_region "rom"
          { origin := some 0, size := 0x10000, mode := "rw", cached := true,
            kind := .plain }).2.add_region "sram"
        { origin := some 0x10000000, size := 0x2000, mode := "rw",
          cached := true, kind := .plain }).2.regions ∧
    tableNoOverlap
      ((initBus.add_region "rom"
          { origin := some 0, size := 0x10000, mode := "rw", cached := true,
            kind := .plain }).2.add_region "sram"
        { origin := some 0x10000000, size := 0x2000, mode := "rw",
          cached := true, kind := .plain }).2.io_regions :=
  C1_regions_never_overlap _
    (Reachable.step "sram"
      { origin := some 0x10000000, size := 0x2000, mode := "rw",
        cached := true, kind := .plain }
      (Reachable.step "rom"
        { origin := some 0, size := 0x10000, mode := "rw", cached := true,
          kind := .plain }
        Reachable.init rfl)
      rfl)

end LitexSoC
